import Mathlib

/-!
Verification of the MetaQuantNig ingestion core: the repository layer
(price, security, filing upserts and queries), the EOD schema normalizer,
and the disclosure-page table locator and link resolver, embedded as
executable Lean definitions translated from the Python sources.

Conventions of the embedding:
- A SQL / pandas cell is `Option String`: `none` is SQL NULL / pandas NaN.
  No claim performs arithmetic on cell payloads, so every scalar payload
  (dates as ISO strings, numbers as their text) is carried as a string.
- A pandas DataFrame is a list of column names plus rows of cells aligned
  positionally with the columns.
- DuckDB statement semantics are modelled explicitly where they decide a
  claim: three-valued NOT IN over nullable columns, the subquery of an
  INSERT .. SELECT evaluated against the table state at statement start,
  and INSERT OR REPLACE by primary key.
-/

namespace MetaQuantNgx

/-- Decidable equality for Except results, so concrete runs evaluate. -/
instance {e a : Type} [DecidableEq e] [DecidableEq a] : DecidableEq (Except e a) := fun x y =>
  match x, y with
  | .ok v, .ok w => if h : v = w then .isTrue (by rw [h]) else .isFalse (by simp [h])
  | .error v, .error w => if h : v = w then .isTrue (by rw [h]) else .isFalse (by simp [h])
  | .ok _, .error _ => .isFalse (by simp)
  | .error _, .ok _ => .isFalse (by simp)

/-- Python str.lower(): character-wise lowercasing (every name these
sources lowercase is ASCII). Written over the character list so that
concrete inputs evaluate by kernel reduction. -/
def lowerStr (s : String) : String := String.mk (s.toList.map Char.toLower)

/-- SQL and pandas cell value: `none` is NULL / NaN, `some s` a scalar
rendered as a string (no claim computes on payloads). -/
abbrev Cell := Option String

/-- A pandas DataFrame as the repositories receive it: named columns, and
rows of cells aligned positionally with `cols`. -/
structure DataFrame where
  cols : List String
  rows : List (List Cell)
deriving DecidableEq, Repr

/-- Indices of the columns whose lowercased name equals `field`, last one
kept: the Python pattern `cols = (dict) c.lower() -> c` keeps the last
occurrence of a lowercase key, and `getLast?` mirrors that. -/
def lastLowerIdx (cols : List String) (field : String) : Option Nat :=
  ((List.range cols.length).filter fun i => lowerStr (cols.getD i "") == field).getLast?

/-- The required canonical columns with no case-insensitive match in `cols`:
the repositories' `missing = [c for c in required if c not in cols]` where
`cols` is the lowercased-name dictionary. -/
def missingCols (required cols : List String) : List String :=
  required.filter fun c => !(cols.any fun col => lowerStr col == c)

/-- One row of `df.rename(columns=...)[required]`: the required fields in
canonical order, each taken from the source column whose lowercased name
matches (last such column, per Python dict semantics). Frames built by the
providers have distinct lowercased column names, which this selection
assumes. -/
def selectRow (cols required : List String) (row : List Cell) : List Cell :=
  required.map fun f =>
    match lastLowerIdx cols f with
    | some i => row.getD i none
    | none => none

/-- Canonical column order of the corporate_filings table. -/
def filingsRequired : List String :=
  ["company_name", "symbol", "disclosure_title", "disclosure_type",
   "disclosure_date", "source_url", "pdf_url", "local_pdf_path"]

/-- The source_url cell of a canonical filing row (position 5). -/
def sourceUrl (r : List Cell) : Cell := r.getD 5 none

/-- The disclosure_title cell of a canonical filing row (position 2). -/
def disclosureTitle (r : List Cell) : Cell := r.getD 2 none

/-- SQL three-valued `v NOT IN s`, reduced to the rows WHERE keeps: the
conjunction of `v <> u` over the members of `s` is TRUE exactly when every
single comparison is TRUE, i.e. both sides are non-NULL and different;
over an empty `s` it is vacuously TRUE. A NULL on either side makes a
comparison UNKNOWN, never TRUE. -/
def sqlNotIn (v : Cell) (s : List Cell) : Bool :=
  s.all fun u =>
    match v, u with
    | some x, some y => x != y
    | _, _ => false

namespace FilingsRepository

/-- FilingsRepository.upsert. Returns without writing on a None or empty
frame; validates the required columns case-insensitively and raises the
missing list otherwise; then executes
INSERT INTO corporate_filings SELECT * FROM filings_df WHERE source_url
NOT IN (SELECT DISTINCT source_url FROM corporate_filings).
The subquery reads the table state at statement start, so every batch row
is compared against the pre-call table only; DISTINCT never changes a
NOT IN outcome, so the plain stored column is used here. -/
def upsert (df : Option DataFrame) (table : List (List Cell)) :
    Except (List String) (List (List Cell)) :=
  match df with
  | none => .ok table
  | some df =>
    if df.rows.isEmpty then .ok table
    else
      let missing := missingCols filingsRequired df.cols
      if missing.isEmpty then
        let norm := df.rows.map (selectRow df.cols filingsRequired)
        .ok (table ++ norm.filter fun r => sqlNotIn (sourceUrl r) (table.map sourceUrl))
      else .error missing

/-- Effect of one upsert call on the stored table: a raised validation
error leaves the table unchanged. -/
def run (df : Option DataFrame) (table : List (List Cell)) : List (List Cell) :=
  match upsert df table with
  | .ok t => t
  | .error _ => table

end FilingsRepository

/-- Canonical column order of the eod_prices table. -/
def priceRequired : List String :=
  ["date", "open", "high", "low", "close", "volume", "symbol"]

namespace PriceRepository

/-- PriceRepository.upsert: same None/empty and validation steps as the
other repositories, then an unconditional INSERT INTO eod_prices with no
identity check. -/
def upsert (df : Option DataFrame) (table : List (List Cell)) :
    Except (List String) (List (List Cell)) :=
  match df with
  | none => .ok table
  | some df =>
    if df.rows.isEmpty then .ok table
    else
      let missing := missingCols priceRequired df.cols
      if missing.isEmpty then
        .ok (table ++ df.rows.map (selectRow df.cols priceRequired))
      else .error missing

/-- Effect of one upsert call on the stored table. -/
def run (df : Option DataFrame) (table : List (List Cell)) : List (List Cell) :=
  match upsert df table with
  | .ok t => t
  | .error _ => table

/-- SQL `symbol IN (list)` on a nullable cell: a NULL symbol is never IN. -/
def sqlIn (v : Cell) (syms : List String) : Bool :=
  match v with
  | some x => syms.contains x
  | none => false

/-- Lexicographic order on character lists: the order of ISO date
strings agrees with DATE order under it. -/
def leChars : List Char → List Char → Bool
  | [], _ => true
  | _ :: _, [] => false
  | a :: as, b :: bs => if a < b then true else if b < a then false else leChars as bs

/-- SQL `date >= bound` under NULL semantics (a NULL date is filtered
out); dates are ISO strings compared lexicographically. -/
def sqlGe (v : Cell) (b : String) : Bool :=
  match v with
  | some x => leChars b.toList x.toList
  | none => false

/-- SQL `date <= bound` under NULL semantics. -/
def sqlLe (v : Cell) (b : String) : Bool :=
  match v with
  | some x => leChars x.toList b.toList
  | none => false

/-- PriceRepository.fetch: a bare string argument is coerced to the
one-element list containing it; the query then keeps the rows whose symbol
is IN the list and whose date lies within the optional inclusive bounds,
in stored order. The symbol column is position 6 and the date column
position 0 of the canonical layout. -/
def fetch (symbols : String ⊕ List String) (start stop : Option String)
    (table : List (List Cell)) : List (List Cell) :=
  let syms :=
    match symbols with
    | .inl s => [s]
    | .inr l => l
  table.filter fun r =>
    sqlIn (r.getD 6 none) syms
      && (match start with
          | none => true
          | some s => sqlGe (r.getD 0 none) s)
      && (match stop with
          | none => true
          | some e => sqlLe (r.getD 0 none) e)

end PriceRepository

/-- Canonical column order of the securities table. -/
def securitiesRequired : List String := ["ticker", "company", "sector", "industry"]

namespace SecurityRepository

/-- The primary-key ticker cell of a canonical securities row (position 0). -/
def ticker (r : List Cell) : Cell := r.getD 0 none

/-- One row of INSERT OR REPLACE INTO securities: a stored row with the
same primary key is overwritten in place by the incoming row, otherwise
the incoming row is appended. (The PRIMARY KEY constraint keeps tickers
non-null and unique in every table the code builds.) -/
def replaceInto (table : List (List Cell)) (r : List Cell) : List (List Cell) :=
  if table.any fun x => ticker x == ticker r then
    table.map fun x => if ticker x == ticker r then r else x
  else table ++ [r]

/-- SecurityRepository.upsert: None/empty and validation steps as in the
other repositories, then INSERT OR REPLACE row by row in batch order. -/
def upsert (df : Option DataFrame) (table : List (List Cell)) :
    Except (List String) (List (List Cell)) :=
  match df with
  | none => .ok table
  | some df =>
    if df.rows.isEmpty then .ok table
    else
      let missing := missingCols securitiesRequired df.cols
      if missing.isEmpty then
        .ok ((df.rows.map (selectRow df.cols securitiesRequired)).foldl replaceInto table)
      else .error missing

/-- Effect of one upsert call on the stored table. -/
def run (df : Option DataFrame) (table : List (List Cell)) : List (List Cell) :=
  match upsert df table with
  | .ok t => t
  | .error _ => table

end SecurityRepository

/-- Candidate source-column names per canonical EOD field, exactly the
dictionary lookups of NgxEodProvider._normalize_columns (symbol accepts
symbol or ticker; close accepts close, price or last; volume accepts
volume or vol; the rest only their own name). -/
def candidatesOf : String → List String
  | "symbol" => ["symbol", "ticker"]
  | "close" => ["close", "price", "last"]
  | "volume" => ["volume", "vol"]
  | f => [f]

/-- The six canonical EOD fields checked by the missing-column guard, in
the order the guard reports them. -/
def eodFields : List String := ["symbol", "open", "high", "low", "close", "volume"]

/-- Resolve one canonical field to a source column: first candidate in
list order with a matching column, the chain
`cols_lower.get(c1) or cols_lower.get(c2) or ...` of the source. Every
value that lookup can return is a name whose lowercase equals the key, so
it is never the empty string and Python truthiness coincides with
presence. -/
def resolveField (cols : List String) (f : String) : Option Nat :=
  (candidatesOf f).findSome? (lastLowerIdx cols)

/-- The two failure modes of NgxEodProvider._normalize_columns: the
missing-column ValueError carrying the unmatched fields, and the
ValueError raised when neither a trading_date argument nor a date column
exists. -/
inductive NormErr where
  | missingFields (fields : List String)
  | noDate
deriving DecidableEq, Repr

/-- Where the normalized date column comes from: the externally supplied
trading_date, or a date column of the source file. -/
inductive DateSource where
  | external (d : String)
  | fromCol (i : Nat)
deriving DecidableEq, Repr

/-- Column-resolution result of NgxEodProvider._normalize_columns: the
source column serving each canonical field, and the date provenance. -/
structure NormalizedShape where
  symbolIdx : Nat
  openIdx : Nat
  highIdx : Nat
  lowIdx : Nat
  closeIdx : Nat
  volumeIdx : Nat
  dateSrc : DateSource
deriving DecidableEq, Repr

namespace NgxEodProvider

/-- NgxEodProvider._normalize_columns at column-resolution level: resolve
the six canonical fields, raise the list of unmatched ones if any, then
attach the date (external trading_date wins; else a date column; else the
dateless ValueError). Value-level cleaning of the selected columns
(symbol strip/upper, volume fillna) renames and drops nothing, so the
shape result carries the resolved indices; no claim concerns cell
payloads of this provider. -/
def normalizeColumns (cols : List String) (trading_date : Option String) :
    Except NormErr NormalizedShape :=
  match resolveField cols "symbol", resolveField cols "open",
      resolveField cols "high", resolveField cols "low",
      resolveField cols "close", resolveField cols "volume" with
  | some si, some oi, some hci, some lci, some ci, some vi =>
    match trading_date with
    | some d => .ok ⟨si, oi, hci, lci, ci, vi, .external d⟩
    | none =>
      match lastLowerIdx cols "date" with
      | some di => .ok ⟨si, oi, hci, lci, ci, vi, .fromCol di⟩
      | none => .error .noDate
  | _, _, _, _, _, _ =>
    .error (.missingFields (eodFields.filter fun f => (resolveField cols f).isNone))

end NgxEodProvider

/-- Python substring test `needle in hay`, over the character lists. -/
def containsSub (needle hay : String) : Bool :=
  decide (needle.toList <:+: hay.toList)

/-- An HTML table as the locator sees it after BeautifulSoup: the rows in
document order, each row the stripped text of its th/td cells. -/
structure HtmlTable where
  rows : List (List String)
deriving DecidableEq, Repr

namespace NgxDisclosurePlaywrightProvider

/-- Header test of the table-selection loop of fetch_page: the first row
is the header (a table with no row, or whose first row has no cells, is
skipped); its cells are lowercased; the table qualifies when some cell
contains company or issuer, and some cell contains disclosure, headline
or subject, or some cell contains date. -/
def headerQualifies (t : HtmlTable) : Bool :=
  match t.rows.head? with
  | none => false
  | some hdr =>
    if hdr.isEmpty then false
    else
      let hs := hdr.map lowerStr
      let has_company := hs.any fun h => containsSub "company" h || containsSub "issuer" h
      let has_disclosures := hs.any fun h =>
        containsSub "disclosure" h || containsSub "headline" h || containsSub "subject" h
      let has_date := hs.any fun h => containsSub "date" h
      has_company && (has_disclosures || has_date)

/-- The selection loop itself: tables in document order, first one whose
header qualifies; none when no table qualifies. -/
def findDisclosuresTable (tables : List HtmlTable) : Option HtmlTable :=
  tables.find? headerQualifies

/-- Split a character list at the first colon-slash-slash, into the
scheme and what follows; none when no such separator occurs. -/
def splitScheme : List Char → Option (List Char × List Char)
  | [] => none
  | c :: rest =>
    if c = ':' && decide (['/', '/'] <+: rest) then some ([], rest.drop 2)
    else
      match splitScheme rest with
      | some (a, b) => some (c :: a, b)
      | none => none

/-- The scheme-and-authority prefix of an absolute URL
(https-colon-slash-slash-host), used when a href starts at the root. -/
def sitePrefix (base : String) : String :=
  match splitScheme base.toList with
  | some (sch, rest) =>
    String.mk (sch ++ [':', '/', '/'] ++ rest.takeWhile fun c => c ≠ '/')
  | none => ""

/-- The base URL up to and including its last slash: the directory a
relative href is resolved in. -/
def baseDir (base : String) : String :=
  String.mk ((base.toList.reverse.dropWhile fun c => c ≠ '/').reverse)

/-- urllib.parse.urljoin modelled for the href shapes the disclosure rows
carry: an empty href keeps the base, a href with a scheme is already
absolute, a protocol-relative href takes the base's scheme, a
root-relative href replaces the base's path, and a relative href is
appended to the base's directory. Dot segments, queries and fragments do
not occur in the rows this provider handles and are not modelled. -/
def urljoin (base href : String) : String :=
  if href = "" then base
  else if (href.toList.takeWhile fun c => c ≠ '/').contains ':' then href
  else if decide (['/', '/'] <+: href.toList) then
    String.mk (base.toList.takeWhile fun c => c ≠ ':') ++ ":" ++ href
  else if decide (['/'] <+: href.toList) then sitePrefix base ++ href
  else baseDir base ++ href

/-- The link step of one extracted row of fetch_page: the first anchor
with a href, if any, resolved with urljoin against the page's base URL
gives source_url; pdf_url repeats it exactly when it is non-empty and its
lowercase ends in dot-pdf. Returns (source_url, pdf_url). -/
def resolveLink (base : String) (anchors : List String) : Option String × Option String :=
  match anchors.head? with
  | none => (none, none)
  | some href =>
    let u := urljoin base href
    (some u, if u ≠ "" && decide (".pdf".toList <:+ (lowerStr u).toList) then some u
      else none)

end NgxDisclosurePlaywrightProvider

/-- A canonical filing row with the given title and source_url, the other
cells fixed. -/
def filingRow (title url : Cell) : List Cell :=
  [some "ACME PLC", none, title, none, none, url, none, none]

/-- A one-row stored corporate_filings table whose row has a non-null
source_url. -/
def storedFilings1 : List (List Cell) :=
  [filingRow (some "Old result") (some "https://x/a")]

/-- A valid filings batch with a single row whose source_url is null. -/
def nullUrlBatch : DataFrame :=
  ⟨filingsRequired, [filingRow (some "New result") none]⟩

/-- A valid filings batch with two rows sharing one source_url but
carrying different titles. -/
def dupUrlBatch : DataFrame :=
  ⟨filingsRequired, [filingRow (some "Half-year results") (some "https://x/u"),
    filingRow (some "Amended results") (some "https://x/u")]⟩

/-- Price-file headers missing both a symbol-like column and a date
column. -/
def eodColsNoSymbolNoDate : List String := ["Open", "High", "Low", "Close", "Volume"]

/-- Price-file headers whose close column is named Close Price: its
lowercase strictly contains the candidate names close and price but
equals neither. -/
def eodColsClosePrice : List String :=
  ["Symbol", "Open", "High", "Low", "Close Price", "Volume", "Date"]

/-- Declarative reading of the locator's header test, stated from the
spec's words: the first row exists, is non-empty, holds an issuer-like
cell (lowercase substring company or issuer), and holds a
disclosure-text-like or a date-like cell. Compared against
headerQualifies, which is the code's Boolean loop body. -/
def qualSpec (t : HtmlTable) : Prop :=
  ∃ hdr, t.rows.head? = some hdr ∧ hdr ≠ [] ∧
    (∃ c ∈ hdr, "company".toList <:+: (lowerStr c).toList ∨
      "issuer".toList <:+: (lowerStr c).toList) ∧
    ((∃ c ∈ hdr, ("disclosure".toList <:+: (lowerStr c).toList ∨
        "headline".toList <:+: (lowerStr c).toList) ∨
        "subject".toList <:+: (lowerStr c).toList) ∨
      (∃ c ∈ hdr, "date".toList <:+: (lowerStr c).toList))

/-- An HTML table of prices whose header matches no issuer-like
vocabulary. -/
def priceTable : HtmlTable := ⟨[["Price", "Volume"], ["1.00", "2000"]]⟩

/-- The disclosures table of the two-table example, with the headers of
the claim. -/
def disclosuresTable : HtmlTable :=
  ⟨[["Company", "Disclosures", "Date Submitted"],
    ["MTN Nigeria", "Board meeting notice", "01-Jan-2024"]]⟩

/-- A one-row securities batch for ticker MTNN with sector Telecom. -/
def mtnnTelecomDf : DataFrame :=
  ⟨securitiesRequired, [[some "MTNN", some "MTN Nigeria", some "Telecom", none]]⟩

/-- A one-row securities batch for ticker MTNN with sector ICT. -/
def mtnnIctDf : DataFrame :=
  ⟨securitiesRequired, [[some "MTNN", some "MTN Nigeria", some "ICT", none]]⟩

/-- Pointwise reading of one SQL comparison kept by sqlNotIn: TRUE exactly
when both cells are non-NULL and different. -/
theorem sqlNe_iff (v u : Cell) :
    (match v, u with
      | some x, some y => x != y
      | _, _ => false) = true ↔ v ≠ none ∧ u ≠ none ∧ v ≠ u := by
  cases v <;> cases u <;> simp

/-- Declarative reading of the modelled NOT IN: the WHERE keeps a value
exactly when it is non-NULL and differs from every member of the set,
every member being non-NULL as well. -/
theorem sqlNotIn_iff (v : Cell) (s : List Cell) :
    sqlNotIn v s = true ↔ ∀ u ∈ s, v ≠ none ∧ u ≠ none ∧ v ≠ u := by
  simp only [sqlNotIn, List.all_eq_true, sqlNe_iff]

/-- A value that is itself a member of the set never passes NOT IN. -/
theorem sqlNotIn_eq_false_of_mem {v : Cell} {s : List Cell} (h : v ∈ s) :
    sqlNotIn v s = false := by
  rw [Bool.eq_false_iff]
  intro htrue
  rcases (sqlNotIn_iff v s).mp htrue v h with ⟨-, -, hne⟩
  exact hne rfl

/-- NOT IN distributes over appended sets as a conjunction. -/
theorem sqlNotIn_append (v : Cell) (s t : List Cell) :
    sqlNotIn v (s ++ t) = (sqlNotIn v s && sqlNotIn v t) :=
  List.all_append

/-- Re-filtering a batch against the table a first filings insert
produced keeps nothing: every row either entered the table (so its
source_url now occurs there) or already failed against the old table. -/
theorem filter_sqlNotIn_self (norm table : List (List Cell)) :
    (norm.filter fun r => sqlNotIn (sourceUrl r)
      ((table ++ norm.filter fun r =>
        sqlNotIn (sourceUrl r) (table.map sourceUrl)).map sourceUrl)) = [] := by
  rw [List.filter_eq_nil_iff]
  intro r hr
  rw [List.map_append, sqlNotIn_append]
  by_cases h : sqlNotIn (sourceUrl r) (table.map sourceUrl) = true
  · have hmem : sourceUrl r ∈ (norm.filter fun r =>
        sqlNotIn (sourceUrl r) (table.map sourceUrl)).map sourceUrl :=
      List.mem_map_of_mem _ (List.mem_filter.mpr ⟨hr, h⟩)
    simp [sqlNotIn_eq_false_of_mem hmem]
  · simp [Bool.eq_false_iff.mpr h]

/-- C1: the claim says a filing row with a null source_url is always
inserted, regardless of the prior contents of the table. The code runs
WHERE source_url NOT IN (SELECT ...), and under SQL three-valued logic a
NULL source_url passes that test only against an empty subquery result:
against the one-row table `storedFilings1` the null-url batch row is
dropped and the table is returned unchanged, against the code's own
docstring (insert the filings whose source_url is not already in the
table). -/
theorem claim_C1 :
    FilingsRepository.upsert (some nullUrlBatch) storedFilings1 = .ok storedFilings1 ∧
      sourceUrl (filingRow (some "New result") none) ∉ storedFilings1.map sourceUrl := by
  decide

/-- C2, counterexample to the claim as stated: a single batch with two
rows sharing source_url https-x-u but different titles, upserted into an
empty table, persists both rows (the NOT IN subquery sees the table state
at statement start), not only the first-seen one. -/
theorem claim_C2_counterexample :
    ((FilingsRepository.run (some dupUrlBatch) []).filter
      fun r => sourceUrl r == some "https://x/u").length = 2 := by
  decide

/-- C2 (amended): a valid non-empty filings upsert appends exactly those
batch rows whose source_url is non-null, differs from every stored
source_url, and meets no null stored source_url; each batch row is
compared against the pre-call table only, so two batch rows sharing one
new source_url are both appended, and rows whose source_url already
occurs in the table are skipped. -/
theorem claim_C2 (df : DataFrame) (table : List (List Cell))
    (hne : df.rows ≠ []) (hval : missingCols filingsRequired df.cols = []) :
    FilingsRepository.upsert (some df) table =
      .ok (table ++ (df.rows.map (selectRow df.cols filingsRequired)).filter
        fun r => decide (∀ u ∈ table.map sourceUrl,
          sourceUrl r ≠ none ∧ u ≠ none ∧ sourceUrl r ≠ u)) := by
  have hemp : df.rows.isEmpty = false := by
    simpa [List.isEmpty_iff] using hne
  simp only [FilingsRepository.upsert, hemp, Bool.false_eq_true, if_false, hval,
    List.isEmpty_nil, if_true]
  congr 2
  apply List.filter_congr
  intro r _
  rw [Bool.eq_iff_iff, decide_eq_true_eq]
  exact sqlNotIn_iff (sourceUrl r) (table.map sourceUrl)

/-- C2 witness: the amended characterization applied to the concrete
duplicate-url batch over the empty table. -/
theorem claim_C2_witness :
    FilingsRepository.upsert (some dupUrlBatch) [] =
      .ok (([] : List (List Cell)) ++
        (dupUrlBatch.rows.map (selectRow dupUrlBatch.cols filingsRequired)).filter
        fun r => decide (∀ u ∈ ([] : List (List Cell)).map sourceUrl,
          sourceUrl r ≠ none ∧ u ≠ none ∧ sourceUrl r ≠ u)) :=
  claim_C2 dupUrlBatch [] (by decide) (by decide)

/-- C3: the filings upsert is idempotent in stored row count: running the
same batch twice leaves the count after the second call equal to the
count after the first, for every batch (valid, invalid, empty or absent)
and every prior table state. -/
theorem claim_C3 (df : Option DataFrame) (table : List (List Cell)) :
    (FilingsRepository.run df (FilingsRepository.run df table)).length =
      (FilingsRepository.run df table).length := by
  match df with
  | none => rfl
  | some df =>
    by_cases hemp : df.rows.isEmpty
    · simp [FilingsRepository.run, FilingsRepository.upsert, hemp]
    · rw [Bool.not_eq_true] at hemp
      by_cases hmiss : (missingCols filingsRequired df.cols).isEmpty
      · simp only [FilingsRepository.run, FilingsRepository.upsert, hemp,
          Bool.false_eq_true, if_false, hmiss, if_true]
        rw [filter_sqlNotIn_self]
        simp
      · rw [Bool.not_eq_true] at hmiss
        simp [FilingsRepository.run, FilingsRepository.upsert, hemp, hmiss]

/-- Declarative reading of the missing-column computation shared by the
three repositories: a required column is reported missing exactly when no
source column lowercases to it. -/
theorem mem_missingCols (required cols : List String) (c : String) :
    c ∈ missingCols required cols ↔ c ∈ required ∧ ∀ col ∈ cols, lowerStr col ≠ c := by
  rw [missingCols, List.mem_filter]
  simp

/-- Declarative reading of one lowercased-dictionary lookup: it hits
exactly when some source column lowercases to the key. -/
theorem lastLowerIdx_isSome (cols : List String) (field : String) :
    (lastLowerIdx cols field).isSome = true ↔ ∃ c ∈ cols, lowerStr c = field := by
  rw [lastLowerIdx, List.getLast?_isSome, Ne, List.filter_eq_nil_iff]
  push_neg
  constructor
  · rintro ⟨i, hir, hp⟩
    rw [List.mem_range] at hir
    refine ⟨cols.getD i "", ?_, by simpa using hp⟩
    rw [List.getD_eq_getElem _ _ hir]
    exact List.getElem_mem hir
  · rintro ⟨c, hc, hf⟩
    rcases List.mem_iff_getElem.mp hc with ⟨i, hi, rfl⟩
    exact ⟨i, List.mem_range.mpr hi,
      by simp [List.getD_eq_getElem _ _ hi, List.getElem?_eq_getElem hi, hf]⟩

/-- Declarative reading of the candidate-chain lookup of one canonical
EOD field: it resolves exactly when some source column's lowercase equals
one of the field's candidate names (equality, not substring). -/
theorem resolveField_isSome (cols : List String) (f : String) :
    (resolveField cols f).isSome = true ↔ ∃ c ∈ cols, lowerStr c ∈ candidatesOf f := by
  rw [resolveField, Option.isSome_iff_ne_none, Ne, List.findSome?_eq_none_iff]
  push_neg
  constructor
  · rintro ⟨cand, hcand, hne⟩
    rcases (lastLowerIdx_isSome cols cand).mp (Option.isSome_iff_ne_none.mpr hne) with
      ⟨c, hc, hl⟩
    exact ⟨c, hc, hl ▸ hcand⟩
  · rintro ⟨c, hc, hmem⟩
    exact ⟨lowerStr c, hmem,
      Option.isSome_iff_ne_none.mp ((lastLowerIdx_isSome cols (lowerStr c)).mpr ⟨c, hc, rfl⟩)⟩

/-- C5, counterexample to the claim as stated: the source column named
Close Price contains the candidate names close and price as lowercase
substrings, yet normalization reports close as unmatched, because the
lookup is an exact dictionary lookup of the lowercased name, not a
substring test. -/
theorem claim_C5_counterexample :
    NgxEodProvider.normalizeColumns eodColsClosePrice none =
        .error (.missingFields ["close"]) ∧
      containsSub "close" (lowerStr "Close Price") = true ∧
      containsSub "price" (lowerStr "Close Price") = true := by
  exact ⟨by decide, by decide, by decide⟩

/-- C5 (amended): a canonical EOD field resolves to a source column
exactly when some source column's lowercased name equals one of the
field's fixed candidate names (case-insensitive exact alias matching, not
substring matching). -/
theorem claim_C5 (cols : List String) (f : String) (hf : f ∈ eodFields) :
    (resolveField cols f).isSome = true ↔ ∃ c ∈ cols, lowerStr c ∈ candidatesOf f :=
  resolveField_isSome cols f

/-- C5 witness: the close field of a frame with a CLOSE column resolves,
through the exact-match characterization at that concrete input. -/
theorem claim_C5_witness :
    "close" ∈ eodFields ∧
      ((resolveField ["Symbol", "CLOSE"] "close").isSome = true ↔
        ∃ c ∈ ["Symbol", "CLOSE"], lowerStr c ∈ candidatesOf "close") :=
  ⟨by decide, claim_C5 ["Symbol", "CLOSE"] "close" (by decide)⟩

/-- C4, counterexample to the claim as stated: on headers lacking both a
symbol-like column and a date column, with no external trading date, the
raised error lists only symbol; the date field also has no matching
source column, yet is not listed. -/
theorem claim_C4_counterexample :
    NgxEodProvider.normalizeColumns eodColsNoSymbolNoDate none =
        .error (.missingFields ["symbol"]) ∧
      (∀ c ∈ eodColsNoSymbolNoDate, lowerStr c ≠ "date") ∧
      "date" ∉ ["symbol"] := by
  exact ⟨by decide, by decide, by decide⟩

set_option maxHeartbeats 1000000 in
/-- Exhaustive case split of the normalizer's control flow: either some
of the six canonical fields is unresolved and the missing-fields error
carries exactly the unresolved ones, or all six resolve and the call
raises the dateless error exactly when neither an external trading date
nor a date column exists, succeeding otherwise. -/
theorem normalizeColumns_cases (cols : List String) (td : Option String) :
    (NgxEodProvider.normalizeColumns cols td =
        .error (.missingFields (eodFields.filter fun f => (resolveField cols f).isNone)) ∧
      ∃ f ∈ eodFields, resolveField cols f = none) ∨
    ((∀ f ∈ eodFields, (resolveField cols f).isSome = true) ∧
      ((td = none ∧ lastLowerIdx cols "date" = none ∧
          NgxEodProvider.normalizeColumns cols td = .error .noDate) ∨
        ((td = none → ∃ di, lastLowerIdx cols "date" = some di) ∧
          ∃ shape, NgxEodProvider.normalizeColumns cols td = .ok shape))) := by
  rcases h1 : resolveField cols "symbol" with _ | si <;>
    rcases h2 : resolveField cols "open" with _ | oi <;>
    rcases h3 : resolveField cols "high" with _ | hci <;>
    rcases h4 : resolveField cols "low" with _ | lci <;>
    rcases h5 : resolveField cols "close" with _ | ci <;>
    rcases h6 : resolveField cols "volume" with _ | vi <;>
    rcases h7 : td with _ | d <;>
    rcases h8 : lastLowerIdx cols "date" with _ | di <;>
    simp_all [NgxEodProvider.normalizeColumns, eodFields]

/-- C4 (amended): normalization fails exactly when at least one canonical
field has no matching source column, the date field counting only when no
external trading date is supplied; when one of the six non-date fields is
unmatched, the raised error lists exactly the unmatched non-date fields,
omitting the date; a missing date is reported through a separate dateless
error only when all six non-date fields matched. No partially normalized
output is produced on failure. -/
theorem claim_C4 (cols : List String) (td : Option String) :
    ((∃ e, NgxEodProvider.normalizeColumns cols td = .error e) ↔
      ((∃ f ∈ eodFields, ¬ ∃ c ∈ cols, lowerStr c ∈ candidatesOf f) ∨
        (td = none ∧ ¬ ∃ c ∈ cols, lowerStr c = "date"))) ∧
    (∀ m f, NgxEodProvider.normalizeColumns cols td = .error (.missingFields m) →
      (f ∈ m ↔ f ∈ eodFields ∧ ¬ ∃ c ∈ cols, lowerStr c ∈ candidatesOf f)) ∧
    (NgxEodProvider.normalizeColumns cols td = .error .noDate →
      td = none ∧ (¬ ∃ c ∈ cols, lowerStr c = "date") ∧
        ∀ f ∈ eodFields, ∃ c ∈ cols, lowerStr c ∈ candidatesOf f) := by
  have hbr : ∀ f, (∃ c ∈ cols, lowerStr c ∈ candidatesOf f) ↔
      (resolveField cols f).isSome = true := fun f => (resolveField_isSome cols f).symm
  have hnbr : ∀ f, (¬ ∃ c ∈ cols, lowerStr c ∈ candidatesOf f) ↔
      resolveField cols f = none := by
    intro f
    rw [hbr f, Option.not_isSome_iff_eq_none]
  have hdt : (¬ ∃ c ∈ cols, lowerStr c = "date") ↔ lastLowerIdx cols "date" = none := by
    rw [← lastLowerIdx_isSome, Option.not_isSome_iff_eq_none]
  rcases normalizeColumns_cases cols td with ⟨hN, f0, hf0, hz⟩ | ⟨hall, hcase⟩
  · refine ⟨?_, ?_, ?_⟩
    · constructor
      · intro _
        exact Or.inl ⟨f0, hf0, (hnbr f0).mpr hz⟩
      · intro _
        exact ⟨_, hN⟩
    · intro m f h
      rw [hN] at h
      have hm : m = eodFields.filter fun f => (resolveField cols f).isNone := by
        simpa using h.symm
      subst hm
      rw [List.mem_filter, hnbr f]
      simp [Option.isNone_iff_eq_none]
    · intro h
      rw [hN] at h
      simp at h
  · rcases hcase with ⟨htd, hld, hN⟩ | ⟨hdd, shape, hN⟩
    · refine ⟨?_, ?_, ?_⟩
      · constructor
        · intro _
          exact Or.inr ⟨htd, hdt.mpr hld⟩
        · intro _
          exact ⟨_, hN⟩
      · intro m f h
        rw [hN] at h
        simp at h
      · intro _
        exact ⟨htd, hdt.mpr hld, fun f hf => (hbr f).mpr (hall f hf)⟩
    · refine ⟨?_, ?_, ?_⟩
      · constructor
        · rintro ⟨e, he⟩
          rw [hN] at he
          simp at he
        · rintro (⟨f, hf, hnf⟩ | ⟨htd2, hnd⟩)
          · have hsome := hall f hf
            rw [(hnbr f).mp hnf] at hsome
            simp at hsome
          · rcases hdd htd2 with ⟨di, hdi⟩
            rw [hdt.mp hnd] at hdi
            simp at hdi
      · intro m f h
        rw [hN] at h
        simp at h
      · intro h
        rw [hN] at h
        simp at h

/-- The locator's Boolean header test agrees with its declarative
reading. -/
theorem headerQualifies_iff (t : HtmlTable) :
    NgxDisclosurePlaywrightProvider.headerQualifies t = true ↔ qualSpec t := by
  rw [NgxDisclosurePlaywrightProvider.headerQualifies, qualSpec]
  cases h : t.rows.head? with
  | none => simp
  | some hdr =>
    by_cases he : hdr = []
    · subst he
      simp
    · have hne : hdr.isEmpty = false := by simpa [List.isEmpty_iff] using he
      simp [hne, List.any_eq_true, containsSub, he]

/-- C6: the locator selects the first table in document order whose first
row holds an issuer-like header cell and a disclosure-text-like or
date-like header cell, ignoring every other table; on the two-table
example where only the second table carries the headers Company,
Disclosures, Date Submitted, the second table is selected. -/
theorem claim_C6 (tables : List HtmlTable) (t : HtmlTable) :
    (NgxDisclosurePlaywrightProvider.findDisclosuresTable tables = some t ↔
      qualSpec t ∧ ∃ pre post, tables = pre ++ t :: post ∧ ∀ u ∈ pre, ¬ qualSpec u) ∧
    NgxDisclosurePlaywrightProvider.findDisclosuresTable [priceTable, disclosuresTable] =
      some disclosuresTable := by
  constructor
  · rw [NgxDisclosurePlaywrightProvider.findDisclosuresTable, List.find?_eq_some]
    constructor
    · rintro ⟨hq, pre, post, rfl, hpre⟩
      refine ⟨(headerQualifies_iff t).mp hq, pre, post, rfl, fun u hu hq2 => ?_⟩
      have hfalse := hpre u hu
      rw [(headerQualifies_iff u).mpr hq2] at hfalse
      simp at hfalse
    · rintro ⟨hq, pre, post, rfl, hpre⟩
      refine ⟨(headerQualifies_iff t).mpr hq, pre, post, rfl, fun u hu => ?_⟩
      cases hq3 : NgxDisclosurePlaywrightProvider.headerQualifies u with
      | false => simp
      | true => exact (hpre u hu ((headerQualifies_iff u).mp hq3)).elim
  · decide

/-- C7: the first anchor of a row, when present, is resolved against the
base URL by urljoin into source_url, and pdf_url repeats that URL exactly
when it is non-empty and its lowercase ends in dot-pdf; at the claim's
concrete input the relative href resolves to the absolute URL and is
tagged as a direct PDF link. -/
theorem claim_C7 :
    (∀ base anchors href, anchors.head? = some href →
      (NgxDisclosurePlaywrightProvider.resolveLink base anchors).1 =
          some (NgxDisclosurePlaywrightProvider.urljoin base href) ∧
        ((NgxDisclosurePlaywrightProvider.resolveLink base anchors).2 =
            some (NgxDisclosurePlaywrightProvider.urljoin base href) ↔
          NgxDisclosurePlaywrightProvider.urljoin base href ≠ "" ∧
            ".pdf".toList <:+
              (lowerStr (NgxDisclosurePlaywrightProvider.urljoin base href)).toList)) ∧
    NgxDisclosurePlaywrightProvider.resolveLink "https://ngxgroup.com/x/"
        ["filings/abc.pdf"] =
      (some "https://ngxgroup.com/x/filings/abc.pdf",
        some "https://ngxgroup.com/x/filings/abc.pdf") := by
  constructor
  · intro base anchors href hh
    by_cases h1 : NgxDisclosurePlaywrightProvider.urljoin base href = ""
    · simp [NgxDisclosurePlaywrightProvider.resolveLink, hh, h1]
    · by_cases h2 : ".pdf".toList <:+
          (lowerStr (NgxDisclosurePlaywrightProvider.urljoin base href)).toList
      · simp [NgxDisclosurePlaywrightProvider.resolveLink, hh, h1, h2]
      · simp [NgxDisclosurePlaywrightProvider.resolveLink, hh, h1, h2]
  · decide

/-- C8: the securities upsert has replace-by-primary-key semantics: a row
of the stored table survives exactly when it is the incoming row or a
stored row with a different ticker; upserting MTNN with sector Telecom
then MTNN with sector ICT leaves exactly the single ICT row. -/
theorem claim_C8 :
    (∀ table r x, x ∈ SecurityRepository.replaceInto table r ↔
      (x = r ∨ (x ∈ table ∧
        SecurityRepository.ticker x ≠ SecurityRepository.ticker r))) ∧
    SecurityRepository.run (some mtnnIctDf)
        (SecurityRepository.run (some mtnnTelecomDf) []) =
      [[some "MTNN", some "MTN Nigeria", some "ICT", none]] := by
  constructor
  · intro table r x
    rw [SecurityRepository.replaceInto]
    by_cases hany : (table.any fun y =>
        SecurityRepository.ticker y == SecurityRepository.ticker r) = true
    · rw [if_pos hany, List.mem_map]
      constructor
      · rintro ⟨y, hy, hfy⟩
        by_cases hty : SecurityRepository.ticker y = SecurityRepository.ticker r
        · left
          rw [← hfy, if_pos (by simp [hty])]
        · right
          rw [← hfy, if_neg (by simp [hty])]
          exact ⟨hy, hty⟩
      · rintro (rfl | ⟨hx, hne⟩)
        · rcases List.any_eq_true.mp hany with ⟨y, hy, hty⟩
          exact ⟨y, hy, if_pos hty⟩
        · exact ⟨x, hx, if_neg (by simp [hne])⟩
    · rw [if_neg hany, List.mem_append, List.mem_singleton]
      have hall : ∀ y ∈ table,
          SecurityRepository.ticker y ≠ SecurityRepository.ticker r := by
        intro y hy heq
        exact hany (List.any_eq_true.mpr ⟨y, hy, by simp [heq]⟩)
      constructor
      · rintro (hx | rfl)
        · exact Or.inr ⟨hx, hall x hx⟩
        · exact Or.inl rfl
      · rintro (rfl | ⟨hx, _⟩)
        · exact Or.inr rfl
        · exact Or.inl hx
  · decide

/-- C9: every repository upsert is a no-op on an absent or empty batch;
on a non-empty batch missing a required canonical column
(case-insensitively) it raises the list of exactly those required columns
no source column lowercases to, and the stored table is unchanged. -/
theorem claim_C9 :
    (∀ req cols c, c ∈ missingCols req cols ↔
      c ∈ req ∧ ∀ col ∈ cols, lowerStr col ≠ c) ∧
    (∀ table : List (List Cell), FilingsRepository.upsert none table = .ok table ∧
      PriceRepository.upsert none table = .ok table ∧
      SecurityRepository.upsert none table = .ok table) ∧
    (∀ df table, df.rows = [] →
      FilingsRepository.upsert (some df) table = .ok table ∧
      PriceRepository.upsert (some df) table = .ok table ∧
      SecurityRepository.upsert (some df) table = .ok table) ∧
    (∀ df table, df.rows ≠ [] →
      (missingCols filingsRequired df.cols ≠ [] →
        FilingsRepository.upsert (some df) table =
            .error (missingCols filingsRequired df.cols) ∧
          FilingsRepository.run (some df) table = table) ∧
      (missingCols priceRequired df.cols ≠ [] →
        PriceRepository.upsert (some df) table =
            .error (missingCols priceRequired df.cols) ∧
          PriceRepository.run (some df) table = table) ∧
      (missingCols securitiesRequired df.cols ≠ [] →
        SecurityRepository.upsert (some df) table =
            .error (missingCols securitiesRequired df.cols) ∧
          SecurityRepository.run (some df) table = table)) := by
  refine ⟨fun req cols c => mem_missingCols req cols c,
    fun table => ⟨rfl, rfl, rfl⟩, ?_, ?_⟩
  · intro df table hrows
    have h : df.rows.isEmpty = true := by simp [hrows]
    exact ⟨by simp [FilingsRepository.upsert, h],
      by simp [PriceRepository.upsert, h],
      by simp [SecurityRepository.upsert, h]⟩
  · intro df table hrows
    have hr : df.rows.isEmpty = false := by simpa [List.isEmpty_iff] using hrows
    refine ⟨fun hm => ?_, fun hm => ?_, fun hm => ?_⟩
    · have hmb : (missingCols filingsRequired df.cols).isEmpty = false := by
        simpa [List.isEmpty_iff] using hm
      exact ⟨by simp [FilingsRepository.upsert, hr, hmb],
        by simp [FilingsRepository.run, FilingsRepository.upsert, hr, hmb]⟩
    · have hmb : (missingCols priceRequired df.cols).isEmpty = false := by
        simpa [List.isEmpty_iff] using hm
      exact ⟨by simp [PriceRepository.upsert, hr, hmb],
        by simp [PriceRepository.run, PriceRepository.upsert, hr, hmb]⟩
    · have hmb : (missingCols securitiesRequired df.cols).isEmpty = false := by
        simpa [List.isEmpty_iff] using hm
      exact ⟨by simp [SecurityRepository.upsert, hr, hmb],
        by simp [SecurityRepository.run, SecurityRepository.upsert, hr, hmb]⟩

/-- C10: fetching prices with a bare string symbol behaves identically to
fetching with the one-element list holding that string, for every store
state and every choice of the optional date bounds. -/
theorem claim_C10 (s : String) (start stop : Option String)
    (table : List (List Cell)) :
    PriceRepository.fetch (.inl s) start stop table =
      PriceRepository.fetch (.inr [s]) start stop table := rfl

end MetaQuantNgx
